import Mathlib

/-!
Verification development for the `tf` batch file organizer
(`src/src/main.rs`).  The Rust source is shallowly embedded: pure
computations become Lean functions, the filesystem becomes an explicit
state record, and fallible operations return `Except`.  External
collaborators (the chrono date library, the mime_guess table, the
std filesystem primitives) are modelled from their documented contracts
as stated in the specification; each such model carries a doc comment
saying so.
-/

namespace TF

/-! ## Calendar conversion (models the chrono crate)

Modelled from the spec: `DateTime::from_timestamp(secs, 0)` together with
`Datelike::{year, month}` (the chrono crate, an external collaborator)
interpret an epoch-second count as a proleptic-Gregorian civil date at
zero UTC offset.  We use the standard civil-from-days algorithm, which
computes exactly that mapping.  All divisions are Euclidean (chrono uses
`div_euclid`, and the division on Int here is Euclidean as well). -/

/-- Days shifted so that day 0 is 0000-03-01 (era origin). -/
def zdays (z0 : Int) : Int := z0 + 719468

/-- Day of era: position of the day within its 400-year era. -/
def doeOf (z0 : Int) : Int := zdays z0 - ((zdays z0 / 146097)) * 146097

/-- Year of era (0..399). -/
def yoeOf (z0 : Int) : Int :=
  (doeOf z0 - doeOf z0 / 1460 + doeOf z0 / 36524 - doeOf z0 / 146096) / 365

/-- Day of year, counted from March 1 (0..365). -/
def doyOf (z0 : Int) : Int :=
  doeOf z0 - (365 * yoeOf z0 + yoeOf z0 / 4 - yoeOf z0 / 100)

/-- March-based month index (0..11). -/
def mpOf (z0 : Int) : Int := (5 * doyOf z0 + 2) / 153

/-- Civil month (1..12) of the day `z0` days after 1970-01-01. -/
def monthOf (z0 : Int) : Int := if mpOf z0 < 10 then mpOf z0 + 3 else mpOf z0 - 9

/-- Civil day of month (1..31). -/
def dayOf (z0 : Int) : Int := doyOf z0 - (153 * mpOf z0 + 2) / 5 + 1

/-- Civil year of the day `z0` days after 1970-01-01. -/
def yearOf (z0 : Int) : Int :=
  yoeOf z0 + ((zdays z0 / 146097)) * 400 + (if monthOf z0 ≤ 2 then 1 else 0)

/-- Civil date (year, month, day) of the day `z0` days after 1970-01-01. -/
def civilFromDays (z0 : Int) : Int × Int × Int := (yearOf z0, monthOf z0, dayOf z0)

/-! ## Month and year formatting -/

/-- The twelve month names as printed by the chrono format string
percent-B, after the lowercasing done on line 95 of main.rs. -/
def monthNames : List String :=
  ["january", "february", "march", "april", "may", "june",
   "july", "august", "september", "october", "november", "december"]

/-- Month name printed for month number `m` (1..12). -/
def monthName (m : Int) : String := monthNames.getD (m.toNat - 1) ""

/-- Decimal digits of a positive number, most significant first; `fuel`
bounds the recursion and any value at least `n` is enough. -/
def natReprAux : Nat → Nat → List Char
  | 0, _ => []
  | _ + 1, 0 => []
  | fuel + 1, n + 1 =>
    natReprAux fuel ((n + 1) / 10) ++ [Nat.digitChar ((n + 1) % 10)]

/-- Decimal representation of a natural number, as Rust ToString prints
it. -/
def natRepr (n : Nat) : String := if n = 0 then "0" else String.mk (natReprAux n n)

/-- Decimal representation of an integer, as Rust i32 Display prints it:
a minus sign for negatives, then digits with no leading zeros. -/
def intRepr (y : Int) : String :=
  if y < 0 then "-" ++ natRepr y.natAbs else natRepr y.toNat

/-- Modelled from the spec: chrono `DateTime::from_timestamp(secs, 0)`
(external crate, main.rs line 94) interprets `secs` at zero UTC offset
and returns none when the resulting year falls outside the chrono year
range -262144..=262143.  The date is `civilFromDays` of the Euclidean
day quotient. -/
def fromTimestamp (secs : Int) : Option (Int × Int × Int) :=
  let ymd := civilFromDays (secs / 86400)
  if -262144 ≤ ymd.1 ∧ ymd.1 ≤ 262143 then some ymd else none

/-- MTime record from main.rs lines 82-85. -/
structure MTime where
  year : String
  month : String
deriving DecidableEq

/-- The pure core of `MTime::try_from` (main.rs lines 93-98): epoch
seconds to the formatted year and lowercase month name; fails when
chrono rejects the timestamp. -/
def bucketOfSecs (secs : Int) : Option MTime :=
  match fromTimestamp secs with
  | none => none
  | some ymd => some { year := intRepr ymd.1, month := monthName ymd.2.1 }

/-! ## Path and string primitives -/

/-- Splits a character list at its last occurrence of `sep`: returns the
parts before and after that separator. -/
def lastSplit (sep : Char) : List Char → Option (List Char × List Char)
  | [] => none
  | c :: cs =>
    match lastSplit sep cs with
    | some (p, q) => some (c :: p, q)
    | none => if c = sep then some ([], cs) else none

/-- Rust `Path::file_name`: the component after the last slash; none for
empty, dot and dot-dot components.  (Component normalisation of messy
paths such as trailing slashes is not modelled; the program only applies
this to clean absolute paths and plain names.) -/
def fileNameOf (p : String) : Option String :=
  let n : List Char :=
    match lastSplit '/' p.data with
    | some (_, q) => q
    | none => p.data
  if n = [] ∨ n = ['.'] ∨ n = ['.', '.'] then none else some (String.mk n)

/-- Rust `split_file_at_dot` on a file name: the extension follows the
last dot at position at least 1; a name whose only dot is its first
character has no extension, and the dot-dot name is special-cased to
none. -/
def extOfName (name : List Char) : Option String :=
  match name with
  | [] => none
  | _ :: cs =>
    if name = ['.', '.'] then none
    else
      match lastSplit '.' cs with
      | some (_, q) => some (String.mk q)
      | none => none

/-- Rust `Path::extension`: extension of the final path component. -/
def pathExtension (p : String) : Option String :=
  match fileNameOf p with
  | none => none
  | some n => extOfName n.data

/-- ASCII lowercasing of a string (Rust `str::to_lowercase`; the names in
the claims are ASCII, where the two functions agree). -/
def lowerStr (s : String) : String := String.mk (s.data.map Char.toLower)

/-- Rust `str::starts_with`. -/
def strStartsWith (pre s : String) : Bool := pre.data.isPrefixOf s.data

/-- True when a path string is absolute, that is, begins with a slash. -/
def isAbsolute (p : String) : Prop := p.data.head? = some '/'

instance (p : String) : Decidable (isAbsolute p) := by
  unfold isAbsolute; infer_instance

/-- Rust `PathBuf::join`: an absolute argument replaces the path,
otherwise the argument is appended behind a separator (no extra
separator when the base is empty or already ends in one). -/
def joinPath (p q : String) : String :=
  if isAbsolute q then q
  else if p.data.getLast? = some '/' ∨ p.data = [] then p ++ q
  else p ++ "/" ++ q

deriving instance DecidableEq for Except

/-! ## Classification -/

/-- Error enum from main.rs lines 14-36.  Payloads that only carry the
formatted collaborator error (the walkdir and io variants) are reduced
to a message string or dropped. -/
inductive Err where
  | WalkDir (msg : String)
  | IoErr
  | Skipping (p : String)
  | NoName (p : String)
  | DateTime (p : String)
  | Mime (p : String)
  | Dir (p : String)
deriving DecidableEq

/-- Modelled from the spec: the extension to media type table (the
external mime_guess crate, main.rs line 122), restricted to the
extensions the specification discusses; extensions outside this table
have no entry. -/
def mimeGuessFirst (ext : String) : Option String :=
  if ext = "jpg" then some "image/jpeg"
  else if ext = "jpeg" then some "image/jpeg"
  else if ext = "png" then some "image/png"
  else if ext = "gif" then some "image/gif"
  else if ext = "mp4" then some "video/mp4"
  else if ext = "mov" then some "video/quicktime"
  else if ext = "txt" then some "text/plain"
  else if ext = "pdf" then some "application/pdf"
  else none

/-- Extension enum from main.rs lines 102-106. -/
inductive Extension where
  | Image
  | Video
deriving DecidableEq

/-- Classification of a lowercased extension string: the arw and heic
special cases (main.rs lines 119-126), then the media type table, then
the image and video dispatch on the media type string (lines 128-132). -/
def classifyExtStr (p : String) (ext : String) : Except Err Extension :=
  let m : Option String :=
    if ext = "arw" then some "image"
    else if ext = "heic" then some "image"
    else mimeGuessFirst ext
  match m with
  | none => Except.error (Err.Mime p)
  | some mime =>
    if strStartsWith "image" mime then Except.ok Extension.Image
    else if strStartsWith "video" mime then Except.ok Extension.Video
    else Except.error (Err.Skipping p)

/-- `Extension::try_from` (main.rs lines 108-136): take the extension of
the path (a missing extension gives the Skipping error of line 114),
lowercase it, classify. -/
def Extension.tryFrom (p : String) : Except Err Extension :=
  match pathExtension p with
  | none => Except.error (Err.Skipping p)
  | some e => classifyExtStr p (lowerStr e)

/-- Display for Extension (main.rs lines 138-147). -/
def extLabel : Extension → String
  | Extension.Video => "videos"
  | Extension.Image => "pictures"

/-! ## Filesystem state -/

/-- Contents and modification time of one regular file. -/
structure FData where
  content : String
  mtimeSecs : Int
deriving DecidableEq

/-- Filesystem state: an association list of regular files and the list
of directories.  The filesystem is the external collaborator that every
primitive of main.rs acts on; it is modelled without symlinks, so
canonical paths are the paths themselves. -/
structure FS where
  files : List (String × FData)
  dirs : List String
deriving DecidableEq

def isFile (fs : FS) (p : String) : Bool :=
  (fs.files.find? (fun e => e.1 == p)).isSome

def getFile (fs : FS) (p : String) : Option FData :=
  (fs.files.find? (fun e => e.1 == p)).map (fun e => e.2)

def isDir (fs : FS) (p : String) : Bool := fs.dirs.contains p

/-- Modelled from the spec: `std::fs::canonicalize` (external primitive,
main.rs lines 68 and 151).  With no symlinks in the model it returns the
path itself when the path exists and an io error otherwise. -/
def canonicalizeFS (fs : FS) (p : String) : Except Err String :=
  if isFile fs p || isDir fs p then Except.ok p else Except.error Err.IoErr

/-- Modelled from the spec: `std::fs::create_dir_all` (external
primitive, main.rs line 177): creates the directory, with its ancestors,
if absent, and succeeds when it already exists; it fails when a file
occupies the place of the directory.  Ancestor entries are folded into
the single created path because no code path ever queries them
separately. -/
def create_dir_all (fs : FS) (p : String) : Except Unit FS :=
  if isFile fs p then Except.error ()
  else if isDir fs p then Except.ok fs
  else Except.ok { fs with dirs := p :: fs.dirs }

/-- Parent path: everything before the last slash. -/
def parentOf (p : String) : String :=
  match lastSplit '/' p.data with
  | some (a, _) => String.mk a
  | none => ""

/-- Modelled from the spec: `std::fs::rename` (external primitive,
main.rs line 182).  Per the specification contract the move is refused
when the destination already exists as a file (no overwrite, no
clobber); it also fails when the source is missing or the destination
parent directory does not exist.  (On POSIX a same-volume rename would
instead replace an existing destination; the primitive lives outside
this repository and the specification fixes the refusing contract.) -/
def rename (fs : FS) (src dst : String) : Except Unit FS :=
  if isFile fs dst then Except.error ()
  else
    match getFile fs src with
    | none => Except.error ()
    | some fd =>
      if isDir fs (parentOf dst) then
        Except.ok { fs with files := (dst, fd) :: fs.files.filter (fun e => e.1 != src) }
      else Except.error ()

/-! ## Target construction and the traversal loop -/

/-- `MTime::try_from` (main.rs lines 87-100): a metadata read (the mtime
lookup in the state, line 91) followed by the pure timestamp
conversion. -/
def MTime.tryFrom (fs : FS) (path : String) : Except Err MTime :=
  match getFile fs path with
  | none => Except.error Err.IoErr
  | some fd =>
    match bucketOfSecs fd.mtimeSecs with
    | none => Except.error (Err.DateTime path)
    | some m => Except.ok m

/-- Target struct from main.rs lines 53-58. -/
structure Target where
  abs_path : String
  extension : Extension
  mtime : MTime
  name : String
deriving DecidableEq

/-- `Target::try_from` (main.rs lines 60-80): directory check,
canonicalize, extension, file name, mtime, in that order.  File names
are Lean strings, so the utf-8 conversion failure branch of line 73
collapses into the missing-name branch. -/
def Target.tryFrom (fs : FS) (path : String) : Except Err Target :=
  if isDir fs path then Except.error (Err.Dir path)
  else
    match canonicalizeFS fs path with
    | Except.error e => Except.error e
    | Except.ok abs_path =>
      match Extension.tryFrom abs_path with
      | Except.error e => Except.error e
      | Except.ok extension =>
        match fileNameOf abs_path with
        | none => Except.error (Err.NoName path)
        | some name =>
          match MTime.tryFrom fs abs_path with
          | Except.error e => Except.error e
          | Except.ok mtime =>
            Except.ok { abs_path := abs_path, extension := extension,
                        mtime := mtime, name := name }

/-- Cli struct from main.rs lines 38-51. -/
structure Cli where
  source : String
  destination : String
  person : String
  dry_run : Bool
deriving DecidableEq

/-- One line printed by the per-entry loop; each constructor records
which println or eprintln of main.rs produced it: errLine is the
eprintln of line 160, dirFail the already-created message of line 179,
moved the success line 183 and renameFail the already-exists message of
line 184. -/
inductive Log where
  | errLine (e : Err)
  | dirFail (d : String)
  | moved (src dst : String)
  | renameFail (dst : String)
deriving DecidableEq

/-- Destination directory (main.rs lines 165-170). -/
def destDirOf (cli : Cli) (t : Target) : String :=
  joinPath (joinPath (joinPath (joinPath cli.destination (extLabel t.extension))
    cli.person) t.mtime.year) t.mtime.month

/-- Destination file (main.rs line 175). -/
def destFileOf (cli : Cli) (t : Target) : String :=
  joinPath (destDirOf cli t) t.name

/-- Body of the per-entry loop (main.rs lines 157-188).  The dry_run
flag is never consulted: the match on it is commented out in the source
(lines 172-173 and 186-188), so directory creation and the rename run
unconditionally.  A create_dir_all failure only prints (line 179) and
falls through to the rename. -/
def processEntry (cli : Cli) (fs : FS) (path : String) : FS × List Log :=
  match Target.tryFrom fs path with
  | Except.error e => (fs, [Log.errLine e])
  | Except.ok target =>
    let destination := destDirOf cli target
    let dest_file := destFileOf cli target
    match create_dir_all fs destination with
    | Except.ok fs1 =>
      match rename fs1 target.abs_path dest_file with
      | Except.ok fs2 => (fs2, [Log.moved target.abs_path dest_file])
      | Except.error _ => (fs1, [Log.renameFail dest_file])
    | Except.error _ =>
      match rename fs target.abs_path dest_file with
      | Except.ok fs2 => (fs2, [Log.dirFail destination, Log.moved target.abs_path dest_file])
      | Except.error _ => (fs, [Log.dirFail destination, Log.renameFail dest_file])

/-- The for loop of main (lines 153-189) over the walkdir item sequence:
an error item hits the question mark operator on line 154 and aborts the
whole run with that error; an ok item is processed and the loop
continues. -/
def runEntries (cli : Cli) : FS → List (Except String String) → Except Err (FS × List Log)
  | fs, [] => Except.ok (fs, [])
  | _, Except.error w :: _ => Except.error (Err.WalkDir w)
  | fs, Except.ok p :: rest =>
    (runEntries cli (processEntry cli fs p).1 rest).map
      (fun r => (r.1, (processEntry cli fs p).2 ++ r.2))

/-- main (lines 149-192): canonicalize the destination at startup (line
151, where a failure aborts with a nonzero exit through the question
mark), then run the loop; `entries` stands for the lazily produced
walkdir item sequence rooted at cli.source. -/
def mainRun (cli : Cli) (fs : FS) (entries : List (Except String String)) :
    Except Err (FS × List Log) :=
  match canonicalizeFS fs cli.destination with
  | Except.error e => Except.error e
  | Except.ok dest => runEntries { cli with destination := dest } fs entries

/-! ## Concrete states used by the claim checks -/

/-- A path segment fit for joining: nonempty, not absolute, no trailing
separator (the well-formedness the specification assumes of owner, year,
month and file name). -/
def plainSeg (s : String) : Prop :=
  s.data ≠ [] ∧ s.data.head? ≠ some '/' ∧ s.data.getLast? ≠ some '/'

def c1cli : Cli :=
  { source := "/s", destination := "/d", person := "bob", dry_run := true }

def c1fs : FS :=
  { files := [("/s/a.jpg", { content := "x", mtimeSecs := 0 })],
    dirs := ["/", "/s", "/d"] }

def c2cli : Cli :=
  { source := "/s", destination := "/d", person := "bob", dry_run := false }

def c2fs : FS :=
  { files := [("/s/a.jpg", { content := "new", mtimeSecs := 0 }),
              ("/d/pictures/bob/1970/january/a.jpg", { content := "old", mtimeSecs := 5 })],
    dirs := ["/", "/s", "/d", "/d/pictures/bob/1970/january"] }

def c2t : Target :=
  { abs_path := "/s/a.jpg", extension := Extension.Image,
    mtime := { year := "1970", month := "january" }, name := "a.jpg" }

def c3cli : Cli :=
  { source := "/s", destination := "/d", person := "bob", dry_run := false }

def c3fs : FS :=
  { files := [("/s/README", { content := "r", mtimeSecs := 0 })],
    dirs := ["/", "/s", "/d"] }

def c5cli : Cli :=
  { source := "", destination := "root", person := "alice", dry_run := false }

def c5t : Target :=
  { abs_path := "/x/a.jpg", extension := Extension.Image,
    mtime := { year := "2023", month := "march" }, name := "a.jpg" }

def c7cli : Cli :=
  { source := "/s", destination := "/d", person := "bob", dry_run := false }

/-- A file blocks the destination directory path, so directory creation
fails for a reason other than already-exists. -/
def c7fs : FS :=
  { files := [("/s/a.jpg", { content := "x", mtimeSecs := 0 }),
              ("/d/pictures/bob/1970/january", { content := "blocker", mtimeSecs := 0 })],
    dirs := ["/", "/s", "/d"] }

def c7t : Target :=
  { abs_path := "/s/a.jpg", extension := Extension.Image,
    mtime := { year := "1970", month := "january" }, name := "a.jpg" }

def c7fs0 : FS := { files := [], dirs := [] }

def c7fs2 : FS := { files := [], dirs := ["/q"] }

def c10cli : Cli :=
  { source := "/s", destination := "/d", person := "bob", dry_run := false }

def c10fs : FS :=
  { files := [("/s/a.jpg", { content := "x", mtimeSecs := 0 })],
    dirs := ["/", "/s", "/d"] }

def c10t : Target :=
  { abs_path := "/s/a.jpg", extension := Extension.Image,
    mtime := { year := "1970", month := "january" }, name := "a.jpg" }

/-! ## Calendar bounds -/

theorem doeOf_bounds (z0 : Int) : 0 ≤ doeOf z0 ∧ doeOf z0 ≤ 146096 := by
  unfold doeOf
  omega

theorem yoeOf_bounds (z0 : Int) : 0 ≤ yoeOf z0 ∧ yoeOf z0 ≤ 399 := by
  have h := doeOf_bounds z0
  unfold yoeOf
  omega

theorem doyOf_bounds (z0 : Int) : 0 ≤ doyOf z0 ∧ doyOf z0 ≤ 365 := by
  have hdoe := doeOf_bounds z0
  unfold doyOf yoeOf
  generalize doeOf z0 = a at hdoe ⊢
  by_cases hmax : a = 146096
  · subst hmax; decide
  · set e : Int := a / 1460 with hE
    set f : Int := a / 36524 with hF
    set g : Int := a / 146096 with hG
    set b : Int := (a - e + f - g) / 365 with hB
    set c : Int := b / 4 with hC
    set d : Int := b / 100 with hD
    have hg0 : g = 0 := by omega
    have h1 : a ≤ 146095 := by omega
    have he : 1460 * e ≤ a ∧ a < 1460 * e + 1460 := by omega
    have hf : 36524 * f ≤ a ∧ a < 36524 * f + 36524 := by omega
    set s : Int := a - 36524 * f with hS
    set t : Int := (s + 24 * f) / 1460 with hT
    have ht : 1460 * t ≤ s + 24 * f ∧ s + 24 * f < 1460 * t + 1460 := by omega
    have hb : 365 * b ≤ a - e + f ∧ a - e + f < 365 * b + 365 := by omega
    have hc : 4 * c ≤ b ∧ b < 4 * c + 4 := by omega
    have hd : 100 * d ≤ b ∧ b < 100 * d + 100 := by omega
    have hf3 : 0 ≤ f ∧ f ≤ 3 := by omega
    have hs0 : 0 ≤ s ∧ s ≤ 36523 := by omega
    have heq : e = 25 * f + t := by omega
    have hts : t ≤ s ∧ s - t ≤ 36499 := by omega
    have hbf : 100 * f ≤ b ∧ b ≤ 100 * f + 99 := by omega
    have hdf : d = f := by omega
    have hfe : f ≤ e := by omega
    have he100 : e ≤ 100 := by omega
    have hbe : 4 * e - 1 ≤ b ∧ b ≤ 4 * e + 3 := by omega
    have hce : e - 1 ≤ c ∧ c ≤ e := by omega
    omega

theorem mpOf_bounds (z0 : Int) : 0 ≤ mpOf z0 ∧ mpOf z0 ≤ 11 := by
  have h := doyOf_bounds z0
  unfold mpOf
  omega

theorem monthOf_bounds (z0 : Int) : 1 ≤ monthOf z0 ∧ monthOf z0 ≤ 12 := by
  have h := mpOf_bounds z0
  unfold monthOf
  split <;> omega

/-! ## String and list helper lemmas -/

theorem data_append (a b : String) : (a ++ b).data = a.data ++ b.data := by
  cases a; cases b; rfl

theorem mk_data (s : String) : String.mk s.data = s := by
  cases s; rfl

theorem lastSplit_of_not_mem {sep : Char} :
    ∀ {l : List Char}, sep ∉ l → lastSplit sep l = none := by
  intro l
  induction l with
  | nil => intro _; rfl
  | cons c cs ih =>
    intro h
    have hc : c ≠ sep := fun hh => h (hh ▸ List.mem_cons_self c cs)
    have hcs : sep ∉ cs := fun hh => h (List.mem_cons_of_mem c hh)
    show (match lastSplit sep cs with
      | some (p, q) => some (c :: p, q)
      | none => if c = sep then some ([], cs) else none) = none
    rw [ih hcs, if_neg hc]

theorem lastSplit_append {sep : Char} {r : List Char} (hr : sep ∉ r) :
    ∀ l : List Char, lastSplit sep (l ++ sep :: r) = some (l, r) := by
  intro l
  induction l with
  | nil =>
    show (match lastSplit sep r with
      | some (p, q) => some (sep :: p, q)
      | none => if sep = sep then some ([], r) else none) = some ([], r)
    rw [lastSplit_of_not_mem hr, if_pos rfl]
  | cons c cs ih =>
    show (match lastSplit sep (cs ++ sep :: r) with
      | some (p, q) => some (c :: p, q)
      | none => if c = sep then some ([], cs ++ sep :: r) else none) = _
    rw [ih]

theorem not_mem_of_lastSplit_none {sep : Char} :
    ∀ {l : List Char}, lastSplit sep l = none → sep ∉ l := by
  intro l
  induction l with
  | nil => intro _ h; cases h
  | cons c cs ih =>
    intro h
    have h2 : (match lastSplit sep cs with
      | some (p, q) => some (c :: p, q)
      | none => if c = sep then some ([], cs) else none) = none := h
    intro hmem
    cases hs : lastSplit sep cs with
    | some pq => rw [hs] at h2; cases h2
    | none =>
      rw [hs] at h2
      rcases List.mem_cons.mp hmem with hceq | hmem2
      · rw [if_pos hceq.symm] at h2; cases h2
      · exact ih hs hmem2

theorem lastSplit_snd_not_mem {sep : Char} :
    ∀ {l a b : List Char}, lastSplit sep l = some (a, b) → sep ∉ b := by
  intro l
  induction l with
  | nil => intro a b h; cases h
  | cons c cs ih =>
    intro a b h
    have h2 : (match lastSplit sep cs with
      | some (p, q) => some (c :: p, q)
      | none => if c = sep then some ([], cs) else none) = some (a, b) := h
    cases hs : lastSplit sep cs with
    | some pq =>
      rw [hs] at h2
      have hb : pq.2 = b := by
        cases pq; cases h2; rfl
      exact hb ▸ ih (by rw [hs])
    | none =>
      rw [hs] at h2
      by_cases hc : c = sep
      · rw [if_pos hc] at h2
        cases h2
        exact not_mem_of_lastSplit_none hs
      · rw [if_neg hc] at h2; cases h2

theorem head_ne_of_not_mem {c : Char} {l : List Char} (h : c ∉ l) :
    l.head? ≠ some c := by
  cases l with
  | nil => simp
  | cons a as =>
    simp only [List.head?_cons, ne_eq, Option.some.injEq]
    intro hac
    exact h (hac ▸ List.mem_cons_self a as)

/-! ## Decimal representation lemmas -/

theorem natReprAux_zero : ∀ fuel, natReprAux fuel 0 = []
  | 0 => rfl
  | _ + 1 => rfl

theorem natReprAux_succ (fuel n : Nat) :
    natReprAux (fuel + 1) (n + 1) =
      natReprAux fuel ((n + 1) / 10) ++ [Nat.digitChar ((n + 1) % 10)] := rfl

theorem digitChar_isDigit : ∀ d : Nat, d < 10 → (Nat.digitChar d).isDigit = true := by
  decide

theorem digitChar_ne_zero : ∀ d : Nat, 1 ≤ d → d < 10 → Nat.digitChar d ≠ '0' := by
  decide

theorem natReprAux_head : ∀ fuel n : Nat, 1 ≤ n → n ≤ fuel →
    ∃ d, 1 ≤ d ∧ d < 10 ∧ (natReprAux fuel n).head? = some (Nat.digitChar d) := by
  intro fuel
  induction fuel with
  | zero => intro n h1 h2; omega
  | succ f ih =>
    intro n h1 h2
    match n, h1 with
    | Nat.succ m, _ =>
      rw [natReprAux_succ]
      by_cases hq : (m + 1) / 10 = 0
      · have hlt : m + 1 < 10 := by omega
        have hmod : (m + 1) % 10 = m + 1 := Nat.mod_eq_of_lt hlt
        rw [hq, natReprAux_zero, List.nil_append, hmod]
        exact ⟨m + 1, by omega, hlt, rfl⟩
      · have hq1 : 1 ≤ (m + 1) / 10 := by omega
        have hq2 : (m + 1) / 10 ≤ f := by omega
        obtain ⟨d, hd1, hd2, hh⟩ := ih ((m + 1) / 10) hq1 hq2
        cases hl : natReprAux f ((m + 1) / 10) with
        | nil => rw [hl] at hh; cases hh
        | cons a as =>
          rw [hl] at hh
          refine ⟨d, hd1, hd2, ?_⟩
          rw [List.cons_append, List.head?_cons]
          rw [List.head?_cons] at hh
          exact hh

theorem natReprAux_digits : ∀ fuel n : Nat, ∀ c ∈ natReprAux fuel n, c.isDigit = true := by
  intro fuel
  induction fuel with
  | zero => intro n c hc; cases hc
  | succ f ih =>
    intro n c hc
    cases n with
    | zero => cases hc
    | succ m =>
      rw [natReprAux_succ] at hc
      rcases List.mem_append.mp hc with h | h
      · exact ih _ c h
      · rcases List.mem_singleton.mp h with rfl
        exact digitChar_isDigit _ (Nat.mod_lt _ (by omega))

theorem natReprAux_len : ∀ fuel k n : Nat, 10 ^ k ≤ n → n ≤ fuel →
    k + 1 ≤ (natReprAux fuel n).length := by
  intro fuel
  induction fuel with
  | zero =>
    intro k n hk h2
    have : 1 ≤ 10 ^ k := Nat.one_le_pow _ _ (by omega)
    omega
  | succ f ih =>
    intro k n hk h2
    have hn1 : 1 ≤ n := le_trans (Nat.one_le_pow _ _ (by omega)) hk
    match n, hn1 with
    | Nat.succ m, _ =>
      rw [natReprAux_succ, List.length_append, List.length_singleton]
      cases k with
      | zero => omega
      | succ j =>
        have hchar : 10 * ((m + 1) / 10) ≤ m + 1 ∧ m + 1 < 10 * ((m + 1) / 10) + 10 := by
          omega
        have hpj : 10 ^ j ≤ (m + 1) / 10 := by
          have hp : 10 * 10 ^ j ≤ m + 1 := by
            calc 10 * 10 ^ j = 10 ^ (j + 1) := (pow_succ 10 j).symm ▸ by ring
            _ ≤ m + 1 := hk
          omega
        have hq2 : (m + 1) / 10 ≤ f := by
          have h10 : 10 ≤ m + 1 := le_trans (by have := Nat.one_le_pow j 10 (by omega); omega) hk
          omega
        have := ih j ((m + 1) / 10) hpj hq2
        omega

theorem natRepr_head_digit (n : Nat) :
    ∃ c, (natRepr n).data.head? = some c ∧ c.isDigit = true := by
  unfold natRepr
  by_cases h : n = 0
  · rw [if_pos h]
    exact ⟨'0', rfl, rfl⟩
  · rw [if_neg h]
    obtain ⟨d, _, hd2, hh⟩ := natReprAux_head n n (by omega) le_rfl
    exact ⟨Nat.digitChar d, hh, digitChar_isDigit d hd2⟩

theorem digit_ne_slash {c : Char} (h : c.isDigit = true) : c ≠ '/' := by
  intro hc
  subst hc
  exact absurd h (by decide)

theorem intRepr_not_abs (y : Int) : ¬ isAbsolute (intRepr y) := by
  unfold intRepr isAbsolute
  by_cases h : y < 0
  · rw [if_pos h, data_append]
    cases hn : (natRepr y.natAbs).data <;> intro hc <;> cases hc
  · rw [if_neg h]
    obtain ⟨c, hc, hdig⟩ := natRepr_head_digit y.toNat
    rw [hc]
    intro he
    injection he with he2
    exact digit_ne_slash hdig he2

theorem intRepr_modern {y : Int} (h : 1000 ≤ y) :
    (∀ c ∈ (intRepr y).data, c.isDigit = true)
    ∧ (intRepr y).data.head? ≠ some '0'
    ∧ 4 ≤ (intRepr y).data.length := by
  unfold intRepr
  rw [if_neg (by omega)]
  have hn1000 : 1000 ≤ y.toNat := by omega
  unfold natRepr
  rw [if_neg (by omega)]
  refine ⟨?_, ?_, ?_⟩
  · intro c hc
    exact natReprAux_digits y.toNat y.toNat c hc
  · obtain ⟨d, hd1, hd2, hh⟩ := natReprAux_head y.toNat y.toNat (by omega) le_rfl
    show (natReprAux y.toNat y.toNat).head? ≠ some '0'
    rw [hh]
    intro he
    injection he with he2
    exact digitChar_ne_zero d hd1 hd2 he2
  · show 4 ≤ (natReprAux y.toNat y.toNat).length
    have h3 : (10 : Nat) ^ 3 = 1000 := by norm_num
    have := natReprAux_len y.toNat 3 y.toNat (by omega) le_rfl
    omega

theorem monthNames_getD_not_abs (i : Nat) : ¬ isAbsolute (monthNames.getD i "") := by
  by_cases h : i < 12
  · interval_cases i <;> decide
  · rw [List.getD_eq_default _ _ (by simp [monthNames]; omega)]
    decide

theorem monthName_not_abs (m : Int) : ¬ isAbsolute (monthName m) :=
  monthNames_getD_not_abs _

theorem monthName_mem {m : Int} (h1 : 1 ≤ m) (h2 : m ≤ 12) :
    monthName m ∈ monthNames := by
  interval_cases m <;> decide

/-! ## Path composition lemmas -/

theorem joinPath_plain {p q : String} (hp0 : p.data ≠ [])
    (hp1 : p.data.getLast? ≠ some '/') (hq : ¬ isAbsolute q) :
    joinPath p q = p ++ "/" ++ q := by
  unfold joinPath
  rw [if_neg hq, if_neg (not_or.mpr ⟨hp1, hp0⟩)]

theorem joinPath_keeps (p : String) {q : String} (hq : ¬ isAbsolute q) :
    p.data <+: (joinPath p q).data := by
  unfold joinPath
  rw [if_neg hq]
  by_cases h : p.data.getLast? = some '/' ∨ p.data = []
  · rw [if_pos h, data_append]
    exact ⟨q.data, rfl⟩
  · rw [if_neg h, data_append, data_append]
    exact ⟨("/" : String).data ++ q.data, (List.append_assoc _ _ _).symm⟩

/-! ## Filesystem lemmas -/

theorem create_dir_all_files {fs : FS} {p : String} {fs2 : FS}
    (h : create_dir_all fs p = Except.ok fs2) : fs2.files = fs.files := by
  unfold create_dir_all at h
  split at h
  · cases h
  · split at h
    · cases h; rfl
    · cases h; rfl

theorem isFile_congr {fs fs2 : FS} (h : fs2.files = fs.files) (p : String) :
    isFile fs2 p = isFile fs p := by
  unfold isFile
  rw [h]

theorem rename_refused {fs : FS} {src dst : String} (h : isFile fs dst = true) :
    rename fs src dst = Except.error () := by
  unfold rename
  rw [if_pos h]

/-! ## Inversion lemmas for Target construction -/

theorem canonicalizeFS_ok {fs : FS} {p q : String}
    (h : canonicalizeFS fs p = Except.ok q) : q = p := by
  unfold canonicalizeFS at h
  split at h
  · cases h; rfl
  · cases h

theorem MTime_tryFrom_ok {fs : FS} {p : String} {m : MTime}
    (h : MTime.tryFrom fs p = Except.ok m) :
    ∃ fd, getFile fs p = some fd ∧ bucketOfSecs fd.mtimeSecs = some m := by
  unfold MTime.tryFrom at h
  split at h
  · cases h
  · rename_i fd hfd
    split at h
    · cases h
    · rename_i m2 hm2
      cases h
      exact ⟨fd, hfd, hm2⟩

theorem fromTimestamp_some {secs : Int} {ymd : Int × Int × Int}
    (h : fromTimestamp secs = some ymd) : ymd = civilFromDays (secs / 86400) := by
  simp only [fromTimestamp] at h
  split at h
  · cases h; rfl
  · cases h

theorem bucketOfSecs_parts {secs : Int} {m : MTime} (h : bucketOfSecs secs = some m) :
    ∃ y mo : Int, 1 ≤ mo ∧ mo ≤ 12 ∧ m.year = intRepr y ∧ m.month = monthName mo := by
  unfold bucketOfSecs at h
  split at h
  · cases h
  · rename_i ymd hymd
    cases h
    have he := fromTimestamp_some hymd
    have hb := monthOf_bounds (secs / 86400)
    refine ⟨ymd.1, ymd.2.1, ?_, ?_, rfl, rfl⟩
    · rw [he]; exact hb.1
    · rw [he]; exact hb.2

theorem fileNameOf_parts {p n : String} (h : fileNameOf p = some n) :
    '/' ∉ n.data ∧ n.data ≠ [] := by
  unfold fileNameOf at h
  cases hs : lastSplit '/' p.data with
  | some pq =>
    obtain ⟨a, b⟩ := pq
    simp only [hs] at h
    split at h
    · cases h
    · rename_i hcond
      cases h
      exact ⟨lastSplit_snd_not_mem hs, fun hnil => hcond (Or.inl hnil)⟩
  | none =>
    simp only [hs] at h
    split at h
    · cases h
    · rename_i hcond
      cases h
      exact ⟨not_mem_of_lastSplit_none hs, fun hnil => hcond (Or.inl hnil)⟩

theorem target_ok_parts {fs : FS} {path : String} {t : Target}
    (h : Target.tryFrom fs path = Except.ok t) :
    isDir fs path = false ∧ t.abs_path = path ∧ fileNameOf path = some t.name
    ∧ Extension.tryFrom path = Except.ok t.extension
    ∧ ∃ fd, getFile fs path = some fd ∧ bucketOfSecs fd.mtimeSecs = some t.mtime := by
  unfold Target.tryFrom at h
  split at h
  · cases h
  · rename_i hdir
    have hdir2 : isDir fs path = false := by
      revert hdir; cases isDir fs path <;> simp
    cases hc : canonicalizeFS fs path with
    | error e => rw [hc] at h; cases h
    | ok abs =>
      rw [hc] at h
      obtain rfl := (canonicalizeFS_ok hc).symm
      cases hx : Extension.tryFrom path with
      | error e => simp only [hx] at h; cases h
      | ok ext =>
        simp only [hx] at h
        cases hnm : fileNameOf path with
        | none => simp only [hnm] at h; cases h
        | some nm =>
          simp only [hnm] at h
          cases hm : MTime.tryFrom fs path with
          | error e => simp only [hm] at h; cases h
          | ok mt =>
            simp only [hm] at h
            cases h
            exact ⟨hdir2, rfl, rfl, rfl, MTime_tryFrom_ok hm⟩

theorem processEntry_err {cli : Cli} {fs : FS} {path : String} {e : Err}
    (h : Target.tryFrom fs path = Except.error e) :
    processEntry cli fs path = (fs, [Log.errLine e]) := by
  simp only [processEntry, h]

/-! ## Claim C8 -/

/-- C8: for every path that denotes a directory, Target construction
fails with the is-a-directory error before any classification, bucketing
or filesystem mutation, and processing such an entry returns the state
unchanged with only the error log line, so no directory is ever
relocated, wherever it sits under the source root. -/
theorem c8_dir_rejected (fs : FS) (path : String) (cli : Cli)
    (h : isDir fs path = true) :
    Target.tryFrom fs path = Except.error (Err.Dir path)
    ∧ processEntry cli fs path = (fs, [Log.errLine (Err.Dir path)]) := by
  have h1 : Target.tryFrom fs path = Except.error (Err.Dir path) := by
    unfold Target.tryFrom
    rw [if_pos h]
  exact ⟨h1, processEntry_err h1⟩

theorem c8_dir_rejected_witness :
    Target.tryFrom { files := [], dirs := ["/d"] } "/d" = Except.error (Err.Dir "/d")
    ∧ processEntry { source := "/s", destination := "/d", person := "bob", dry_run := false }
        { files := [], dirs := ["/d"] } "/d"
      = ({ files := [], dirs := ["/d"] }, [Log.errLine (Err.Dir "/d")]) :=
  c8_dir_rejected { files := [], dirs := ["/d"] } "/d"
    { source := "/s", destination := "/d", person := "bob", dry_run := false } (by decide)

/-! ## Claim C9 -/

/-- C9: per-entry failure is atomic: whenever Target construction fails
for an entry, for any of its failure reasons, processing that entry
returns the filesystem state unchanged and only logs the error line, so
no directory is created and no rename is attempted for that entry. -/
theorem c9_failure_atomic (cli : Cli) (fs : FS) (path : String) (e : Err)
    (h : Target.tryFrom fs path = Except.error e) :
    processEntry cli fs path = (fs, [Log.errLine e]) :=
  processEntry_err h

theorem c9_failure_atomic_witness :
    processEntry c3cli c3fs "/s/README" = (c3fs, [Log.errLine (Err.Skipping "/s/README")]) :=
  c9_failure_atomic c3cli c3fs "/s/README" (Err.Skipping "/s/README") (by decide)

/-! ## Claim C3 (corrected) -/

/-- C3 counterexample: an error item from the directory-walk primitive
aborts the whole run through the question mark on line 154: with an
erroring walk item followed by a processable file entry, the run returns
the walkdir error (non-zero exit) and the following entry is never
processed, contradicting the claim that a walk error over one entry is
logged, skipped, and the traversal continues. -/
theorem c3_counterexample :
    runEntries c3cli c3fs [Except.error "denied", Except.ok "/s/README"]
      = Except.error (Err.WalkDir "denied")
    ∧ Target.tryFrom c3fs "/s/README" = Except.error (Err.Skipping "/s/README") := by
  exact ⟨rfl, by decide⟩

/-- C3 amended: a Target-construction failure for an entry is logged and
skipped and the loop continues with the remaining entries over an
unchanged state; but an error item from the directory-walk primitive
itself aborts the run immediately with the walkdir error, so the process
also exits non-zero on a mid-walk error, not only on startup failures. -/
theorem c3_amended :
    (∀ (cli : Cli) (fs : FS) (path : String) (e : Err)
        (rest : List (Except String String)),
      Target.tryFrom fs path = Except.error e →
      runEntries cli fs (Except.ok path :: rest)
        = (runEntries cli fs rest).map (fun r => (r.1, Log.errLine e :: r.2)))
    ∧ (∀ (cli : Cli) (fs : FS) (w : String) (rest : List (Except String String)),
      runEntries cli fs (Except.error w :: rest) = Except.error (Err.WalkDir w)) := by
  constructor
  · intro cli fs path e rest h
    show (runEntries cli (processEntry cli fs path).1 rest).map
        (fun r => (r.1, (processEntry cli fs path).2 ++ r.2)) = _
    rw [processEntry_err h]
    rfl
  · intro cli fs w rest
    rfl

theorem c3_amended_witness :
    runEntries c3cli c3fs [Except.ok "/s/README"]
      = (runEntries c3cli c3fs []).map
          (fun r => (r.1, Log.errLine (Err.Skipping "/s/README") :: r.2))
    ∧ runEntries c3cli c3fs [Except.error "boom"] = Except.error (Err.WalkDir "boom") :=
  ⟨c3_amended.1 c3cli c3fs "/s/README" (Err.Skipping "/s/README") [] (by decide),
   c3_amended.2 c3cli c3fs "boom" []⟩

/-! ## Claim C1 (code bug) -/

/-- C1: the dry-run claim fails on the code as written: the match on the
dry_run flag is commented out in main.rs (lines 172-173 and 186-188), so
the flag is parsed but never consulted.  This theorem evaluates the run
at the failing input: dry_run is set, the source file exists before the
run, and the run still renames it into the destination tree, mutating
the filesystem. -/
theorem c1_dry_run_still_moves :
    c1cli.dry_run = true
    ∧ isFile c1fs "/s/a.jpg" = true
    ∧ mainRun c1cli c1fs [Except.ok "/s/a.jpg"]
      = Except.ok
          ({ files := [("/d/pictures/bob/1970/january/a.jpg",
                        { content := "x", mtimeSecs := 0 })],
             dirs := ["/d/pictures/bob/1970/january", "/", "/s", "/d"] },
           [Log.moved "/s/a.jpg" "/d/pictures/bob/1970/january/a.jpg"]) := by
  refine ⟨rfl, rfl, ?_⟩
  decide

/-! ## Claim C2 -/

/-- C2: for every entry whose resolved destination path already exists
as a file, the rename is refused: the file map is unchanged (the source
file stays in place and the pre-existing destination content is
untouched), the last printed line is the already-exists report, and the
loop continues over the remaining entries.  The rename primitive is
modelled from the specification contract, which refuses an occupied
destination. -/
theorem c2_existing_destination_refused (cli : Cli) (fs : FS) (path : String)
    (t : Target) (ht : Target.tryFrom fs path = Except.ok t)
    (hex : isFile fs (destFileOf cli t) = true) :
    (processEntry cli fs path).1.files = fs.files
    ∧ (processEntry cli fs path).2.getLast? = some (Log.renameFail (destFileOf cli t))
    ∧ ∀ rest, runEntries cli fs (Except.ok path :: rest)
        = (runEntries cli (processEntry cli fs path).1 rest).map
            (fun r => (r.1, (processEntry cli fs path).2 ++ r.2)) := by
  have key : (processEntry cli fs path).1.files = fs.files
      ∧ (processEntry cli fs path).2.getLast?
          = some (Log.renameFail (destFileOf cli t)) := by
    simp only [processEntry, ht]
    cases hcda : create_dir_all fs (destDirOf cli t) with
    | ok fs1 =>
      dsimp only
      have hfiles := create_dir_all_files hcda
      have hex1 : isFile fs1 (destFileOf cli t) = true := by
        rw [isFile_congr hfiles]
        exact hex
      rw [rename_refused hex1]
      exact ⟨hfiles, rfl⟩
    | error u =>
      dsimp only
      rw [rename_refused hex]
      exact ⟨rfl, rfl⟩
  exact ⟨key.1, key.2, fun rest => rfl⟩

theorem c2_witness :
    (processEntry c2cli c2fs "/s/a.jpg").1.files = c2fs.files
    ∧ (processEntry c2cli c2fs "/s/a.jpg").2.getLast?
        = some (Log.renameFail (destFileOf c2cli c2t)) :=
  ⟨(c2_existing_destination_refused c2cli c2fs "/s/a.jpg" c2t (by decide) (by decide)).1,
   (c2_existing_destination_refused c2cli c2fs "/s/a.jpg" c2t (by decide) (by decide)).2.1⟩

/-! ## Claim C7 (corrected) -/

/-- C7 counterexample: with a file occupying the destination directory
path, directory creation fails for a reason other than already-exists,
yet the entry is not skipped before the move: the rename is still
attempted, as the rename-branch line after the directory message in the
log shows.  (The rename then fails because the parent is blocked, and
the code prints the misleading already-exists message.) -/
theorem c7_counterexample :
    create_dir_all c7fs (destDirOf c7cli c7t) = Except.error ()
    ∧ processEntry c7cli c7fs "/s/a.jpg"
      = (c7fs, [Log.dirFail "/d/pictures/bob/1970/january",
                Log.renameFail "/d/pictures/bob/1970/january/a.jpg"]) := by
  exact ⟨by decide, by decide⟩

/-- C7 amended: before each move the destination directory chain is
created if absent, and an already existing directory is not an error
(creation just succeeds); but when creation fails the code only prints
the directory message and still proceeds to attempt the move; the entry
is never skipped between directory creation and the rename. -/
theorem c7_amended :
    (∀ (fs : FS) (p : String) (fs2 : FS), create_dir_all fs p = Except.ok fs2 →
      isDir fs2 p = true ∧ fs2.files = fs.files)
    ∧ (∀ (fs : FS) (p : String), isFile fs p = false → isDir fs p = true →
      create_dir_all fs p = Except.ok fs)
    ∧ (∀ (cli : Cli) (fs : FS) (path : String) (t : Target),
      Target.tryFrom fs path = Except.ok t →
      create_dir_all fs (destDirOf cli t) = Except.error () →
      (processEntry cli fs path).2.head? = some (Log.dirFail (destDirOf cli t))
      ∧ ((processEntry cli fs path).2.getLast?
            = some (Log.renameFail (destFileOf cli t))
         ∨ (processEntry cli fs path).2.getLast?
            = some (Log.moved t.abs_path (destFileOf cli t)))) := by
  refine ⟨?_, ?_, ?_⟩
  · intro fs p fs2 h
    unfold create_dir_all at h
    split at h
    · cases h
    · split at h
      · rename_i hdir
        cases h
        exact ⟨hdir, rfl⟩
      · cases h
        constructor
        · show (p :: fs.dirs).contains p = true
          simp [List.contains_cons]
        · rfl
  · intro fs p hf hd
    unfold create_dir_all
    rw [if_neg (by rw [hf]; exact Bool.false_ne_true), if_pos hd]
  · intro cli fs path t ht hc
    simp only [processEntry, ht]
    rw [hc]
    cases hr : rename fs t.abs_path (destFileOf cli t) with
    | ok fs2 => exact ⟨rfl, Or.inr rfl⟩
    | error u => exact ⟨rfl, Or.inl rfl⟩

theorem c7_amended_witness :
    (isDir c7fs2 "/q" = true ∧ c7fs2.files = c7fs0.files)
    ∧ (processEntry c7cli c7fs "/s/a.jpg").2.head?
        = some (Log.dirFail (destDirOf c7cli c7t)) :=
  ⟨c7_amended.1 c7fs0 "/q" c7fs2 (by decide),
   (c7_amended.2.2 c7cli c7fs "/s/a.jpg" c7t (by decide) (by decide)).1⟩

/-! ## Claim C5 -/

theorem strApp_tail {b : String} (a : String) (hb : b.data ≠ []) :
    (a ++ b).data ≠ [] ∧ (a ++ b).data.getLast? = b.data.getLast? := by
  rw [data_append]
  constructor
  · intro h
    exact hb (List.append_eq_nil.mp h).2
  · exact List.getLast?_append_of_ne_nil a.data hb

/-- C5: for every well-formed Target (nonempty plain segments), the
resolved destination file equals destination root, category label,
owner, year, month and file name joined by separators, with
pictures for images and videos for videos; and the concrete spec
example resolves to root/pictures/alice/2023/march/a.jpg. -/
theorem c5_resolve :
    (∀ (cli : Cli) (t : Target),
      cli.destination.data ≠ [] → cli.destination.data.getLast? ≠ some '/' →
      plainSeg cli.person → plainSeg t.mtime.year → plainSeg t.mtime.month →
      t.name.data.head? ≠ some '/' →
      destFileOf cli t
        = cli.destination ++ "/" ++ extLabel t.extension ++ "/" ++ cli.person
          ++ "/" ++ t.mtime.year ++ "/" ++ t.mtime.month ++ "/" ++ t.name)
    ∧ destFileOf c5cli c5t = "root/pictures/alice/2023/march/a.jpg" := by
  constructor
  · intro cli t h1 h2 hp hy hm hn
    have hlab : ¬ isAbsolute (extLabel t.extension)
        ∧ (extLabel t.extension).data ≠ []
        ∧ (extLabel t.extension).data.getLast? ≠ some '/' := by
      cases t.extension <;> exact ⟨by decide, by decide, by decide⟩
    unfold destFileOf destDirOf
    rw [joinPath_plain h1 h2 hlab.1]
    have s1 := strApp_tail (cli.destination ++ "/") hlab.2.1
    rw [joinPath_plain s1.1 (by rw [s1.2]; exact hlab.2.2) hp.2.1]
    have s2 := strApp_tail (cli.destination ++ "/" ++ extLabel t.extension ++ "/") hp.1
    rw [joinPath_plain s2.1 (by rw [s2.2]; exact hp.2.2) hy.2.1]
    have s3 := strApp_tail
      (cli.destination ++ "/" ++ extLabel t.extension ++ "/" ++ cli.person ++ "/") hy.1
    rw [joinPath_plain s3.1 (by rw [s3.2]; exact hy.2.2) hm.2.1]
    have s4 := strApp_tail
      (cli.destination ++ "/" ++ extLabel t.extension ++ "/" ++ cli.person ++ "/"
        ++ t.mtime.year ++ "/") hm.1
    rw [joinPath_plain s4.1 (by rw [s4.2]; exact hm.2.2) hn]
  · decide

theorem c5_resolve_witness :
    destFileOf c5cli c5t
      = ("root" : String) ++ "/" ++ extLabel Extension.Image ++ "/" ++ "alice"
        ++ "/" ++ "2023" ++ "/" ++ "march" ++ "/" ++ "a.jpg" :=
  c5_resolve.1 c5cli c5t (by decide) (by decide)
    ⟨by decide, by decide, by decide⟩ ⟨by decide, by decide, by decide⟩
    ⟨by decide, by decide, by decide⟩ (by decide)

/-! ## Claim C10 -/

/-- C10: for every run whose owner name is not an absolute path, every
destination the program computes for a constructed Target (both the
destination directory and the destination file) keeps the destination
root as a prefix: the category label, year, month and file-name segments
joined behind it are never absolute. -/
theorem c10_no_escape (cli : Cli) (fs : FS) (path : String) (t : Target)
    (ht : Target.tryFrom fs path = Except.ok t)
    (hp : ¬ isAbsolute cli.person) :
    cli.destination.data <+: (destDirOf cli t).data
    ∧ cli.destination.data <+: (destFileOf cli t).data := by
  obtain ⟨-, -, hnm, -, fd, -, hbk⟩ := target_ok_parts ht
  obtain ⟨y, mo, hmo1, hmo2, hyear, hmonth⟩ := bucketOfSecs_parts hbk
  have hlab : ¬ isAbsolute (extLabel t.extension) := by
    cases t.extension <;> decide
  have hyr : ¬ isAbsolute t.mtime.year := by
    rw [hyear]; exact intRepr_not_abs y
  have hmn : ¬ isAbsolute t.mtime.month := by
    rw [hmonth]; exact monthName_not_abs mo
  have hnabs : ¬ isAbsolute t.name :=
    head_ne_of_not_mem (fileNameOf_parts hnm).1
  have hdir : cli.destination.data <+: (destDirOf cli t).data := by
    unfold destDirOf
    exact (((joinPath_keeps cli.destination hlab).trans
      (joinPath_keeps _ hp)).trans
      (joinPath_keeps _ hyr)).trans
      (joinPath_keeps _ hmn)
  refine ⟨hdir, ?_⟩
  unfold destFileOf
  exact hdir.trans (joinPath_keeps _ hnabs)

theorem c10_no_escape_witness :
    c10cli.destination.data <+: (destDirOf c10cli c10t).data
    ∧ c10cli.destination.data <+: (destFileOf c10cli c10t).data :=
  c10_no_escape c10cli c10fs "/s/a.jpg" c10t (by decide) (by decide)

/-! ## Claim C4 (corrected) -/

theorem lowerStr_data (s : String) : (lowerStr s).data = s.data.map Char.toLower := rfl

theorem ext_ne_of_lower {ext t : String} (h : lowerStr ext = t) (ht : t.data ≠ []) :
    ext.data ≠ [] := by
  intro hnil
  apply ht
  rw [← h, lowerStr_data, hnil]
  rfl

theorem classify_jpg (p : String) : classifyExtStr p "jpg" = Except.ok Extension.Image := rfl

theorem classify_png (p : String) : classifyExtStr p "png" = Except.ok Extension.Image := rfl

theorem classify_heic (p : String) : classifyExtStr p "heic" = Except.ok Extension.Image := rfl

theorem classify_arw (p : String) : classifyExtStr p "arw" = Except.ok Extension.Image := rfl

theorem classify_mp4 (p : String) : classifyExtStr p "mp4" = Except.ok Extension.Video := rfl

theorem classify_mov (p : String) : classifyExtStr p "mov" = Except.ok Extension.Video := rfl

theorem classify_txt (p : String) :
    classifyExtStr p "txt" = Except.error (Err.Skipping p) := rfl

theorem classify_pdf (p : String) :
    classifyExtStr p "pdf" = Except.error (Err.Skipping p) := rfl

/-- A name that decomposes as a nonempty stem, a dot, and a dot-free
nonempty extension (with no separator anywhere) has exactly that
extension under the Rust extension rules. -/
theorem pathExtension_decomp {name stem ext : String}
    (hd : name.data = stem.data ++ '.' :: ext.data) (hst : stem.data ≠ [])
    (hnd : '.' ∉ ext.data) (hns : '/' ∉ name.data) (hne : ext.data ≠ []) :
    pathExtension name = some ext := by
  have hlen : 3 ≤ name.data.length := by
    rw [hd, List.length_append, List.length_cons]
    cases hcs : stem.data with
    | nil => exact absurd hcs hst
    | cons a as =>
      cases hce : ext.data with
      | nil => exact absurd hce hne
      | cons b bs => simp; omega
  have hfn : fileNameOf name = some name := by
    have hsl : lastSplit '/' name.data = none := lastSplit_of_not_mem hns
    simp only [fileNameOf, hsl]
    rw [if_neg ?hcond, mk_data]
    case hcond =>
      intro hcase
      rcases hcase with hh | hh | hh <;> rw [hh] at hlen <;> simp at hlen
  have hext : extOfName name.data = some ext := by
    obtain ⟨s0, stl, hstem⟩ : ∃ c l, stem.data = c :: l := by
      cases hcs : stem.data with
      | nil => exact absurd hcs hst
      | cons a as => exact ⟨a, as, rfl⟩
    have hd2 : name.data = s0 :: (stl ++ '.' :: ext.data) := by
      rw [hd, hstem]; rfl
    have hdd : s0 :: (stl ++ '.' :: ext.data) ≠ ['.', '.'] := by
      intro hh
      rw [hd2, hh] at hlen
      simp at hlen
    rw [hd2]
    show (if s0 :: (stl ++ '.' :: ext.data) = ['.', '.'] then none
      else match lastSplit '.' (stl ++ '.' :: ext.data) with
        | some (_, q) => some (String.mk q)
        | none => none) = some ext
    rw [if_neg hdd, lastSplit_append hnd stl]
  simp only [pathExtension, hfn]
  exact hext

/-- C4 counterexample: the name .jpg ends in .jpg, but Rust treats a
name whose only dot is its leading character as extensionless, so
classification fails with the skip error instead of returning Image. -/
theorem c4_counterexample :
    (".jpg" : String).data = '.' :: ("jpg" : String).data
    ∧ Extension.tryFrom ".jpg" = Except.error (Err.Skipping ".jpg") :=
  ⟨rfl, rfl⟩

/-- C4 amended: for every file name that splits as a nonempty stem
followed by a dot and a dot-free final extension, classification follows
the fixed table on the lowercased extension: jpg, png, heic and arw give
Image; mp4 and mov give Video; txt and pdf fail with the skip error; and
every name without an extension in the Rust sense (which includes a bare
dotfile such as .jpg, whose stem is empty) fails with the skip error. -/
theorem c4_amended :
    (∀ name stem ext : String,
      name.data = stem.data ++ '.' :: ext.data →
      stem.data ≠ [] →
      '.' ∉ ext.data →
      '/' ∉ name.data →
      ((lowerStr ext = "jpg" ∨ lowerStr ext = "png" ∨ lowerStr ext = "heic"
          ∨ lowerStr ext = "arw") →
        Extension.tryFrom name = Except.ok Extension.Image)
      ∧ ((lowerStr ext = "mp4" ∨ lowerStr ext = "mov") →
        Extension.tryFrom name = Except.ok Extension.Video)
      ∧ ((lowerStr ext = "txt" ∨ lowerStr ext = "pdf") →
        Extension.tryFrom name = Except.error (Err.Skipping name)))
    ∧ (∀ name : String, pathExtension name = none →
      Extension.tryFrom name = Except.error (Err.Skipping name)) := by
  constructor
  · intro name stem ext hd hst hnd hns
    refine ⟨?_, ?_, ?_⟩
    · intro hl
      have hne : ext.data ≠ [] := by
        rcases hl with h | h | h | h <;> exact ext_ne_of_lower h (by decide)
      have hpe := pathExtension_decomp hd hst hnd hns hne
      rcases hl with h | h | h | h <;> simp only [Extension.tryFrom, hpe, h] <;>
        try rfl
    · intro hl
      have hne : ext.data ≠ [] := by
        rcases hl with h | h <;> exact ext_ne_of_lower h (by decide)
      have hpe := pathExtension_decomp hd hst hnd hns hne
      rcases hl with h | h <;> simp only [Extension.tryFrom, hpe, h] <;> try rfl
    · intro hl
      have hne : ext.data ≠ [] := by
        rcases hl with h | h <;> exact ext_ne_of_lower h (by decide)
      have hpe := pathExtension_decomp hd hst hnd hns hne
      rcases hl with h | h <;> simp only [Extension.tryFrom, hpe, h] <;> try rfl
  · intro name h
    simp only [Extension.tryFrom, h]

theorem c4_amended_witness :
    Extension.tryFrom "photo.JPG" = Except.ok Extension.Image
    ∧ Extension.tryFrom "clip.mov" = Except.ok Extension.Video
    ∧ Extension.tryFrom "notes.txt" = Except.error (Err.Skipping "notes.txt")
    ∧ Extension.tryFrom "README" = Except.error (Err.Skipping "README") :=
  ⟨(c4_amended.1 "photo.JPG" "photo" "JPG" (by decide) (by decide) (by decide)
      (by decide)).1 (Or.inl (by decide)),
   (c4_amended.1 "clip.mov" "clip" "mov" (by decide) (by decide) (by decide)
      (by decide)).2.1 (Or.inr (by decide)),
   (c4_amended.1 "notes.txt" "notes" "txt" (by decide) (by decide) (by decide)
      (by decide)).2.2 (Or.inl (by decide)),
   c4_amended.2 "README" (by decide)⟩

/-! ## Claim C6 -/

/-- C6: temporal bucketing is a function of the timestamp alone (same
epoch seconds, same bucket), the bucket of a convertible timestamp is
the formatted year together with the month name, the month name is
always one of the twelve lowercase English month names, and for
ordinary modern dates (year at least 1000) the year string is all
decimal digits with no sign, no leading zero and at least four
digits. -/
theorem c6_bucket (secs y m d : Int)
    (h : fromTimestamp secs = some (y, m, d)) :
    (∀ s2 : Int, s2 = secs → bucketOfSecs s2 = bucketOfSecs secs)
    ∧ bucketOfSecs secs = some { year := intRepr y, month := monthName m }
    ∧ monthName m ∈ monthNames
    ∧ (1000 ≤ y →
        (∀ c ∈ (intRepr y).data, c.isDigit = true)
        ∧ (intRepr y).data.head? ≠ some '0'
        ∧ 4 ≤ (intRepr y).data.length) := by
  have hm : 1 ≤ m ∧ m ≤ 12 := by
    have he := fromTimestamp_some h
    have hb := monthOf_bounds (secs / 86400)
    have hm2 : m = (civilFromDays (secs / 86400)).2.1 := by rw [← he]
    rw [hm2]
    exact hb
  refine ⟨fun s2 hs2 => by rw [hs2], ?_, monthName_mem hm.1 hm.2,
    fun hy => intRepr_modern hy⟩
  unfold bucketOfSecs
  rw [h]

theorem c6_bucket_witness :
    bucketOfSecs 0 = some { year := intRepr 1970, month := monthName 1 }
    ∧ monthName 1 ∈ monthNames
    ∧ 4 ≤ (intRepr 1970).data.length := by
  have h := c6_bucket 0 1970 1 1 (by decide)
  exact ⟨h.2.1, h.2.2.1, (h.2.2.2 (by norm_num)).2.2⟩

end TF
